import Mathlib

/-!
Verification of the `ginject` IoC container (package `boot`) against its
natural-language specification.  The Go sources are shallowly embedded:
`reflect.Type` values become numeric capability identifiers, component
instances become records carrying exactly the dynamic attributes the
container inspects (their type, the set of types they are assignable to,
and which lifecycle callbacks they implement together with those
callbacks' outcomes), and the container's maps become association lists.
Every definition mirrors the corresponding Go function in
`boot/container.go`, `boot/object_builder.go` or the auxiliary files.
-/

namespace Ginject

/-- Capability identifier, standing for a `reflect.Type` value. -/
abbrev TypeId := Nat

/-- The dynamic attributes of a registered component instance that the
container ever inspects: its concrete `reflect` type, the set of types the
value is assignable to (`reflect.Type.AssignableTo`), and its lifecycle
callbacks.  A callback field `none` means the instance does not implement
the corresponding interface (`Initializable` / `Startable` / `Stoppable`);
`some true` means the callback returns `nil`; `some false` means it
returns an error. -/
structure Instance where
  typeId : TypeId
  assignSet : List TypeId
  initCb : Option Bool
  startCb : Option Bool
  stopCb : Option Bool
deriving DecidableEq, Repr

/-- `reflect.Value.AssignableTo`: whether this instance can be assigned to
a location of type `ty`. -/
def Instance.assignableTo (i : Instance) (ty : TypeId) : Bool :=
  i.assignSet.contains ty

/-- Mirror of `ComponentInfo` in `boot/container.go`.  `instanceType` is
`none` when the Go field is left at its zero value (`nil`), as
`AutoRegister` does. -/
structure ComponentInfo where
  inst : Instance
  instanceType : Option TypeId
  name : String
  priority : Int
  exportedTypes : List TypeId
  isPrimary : Bool
deriving DecidableEq, Repr

/-- Mirror of `Container` in `boot/container.go`.  The two Go maps are
modelled as association lists (insertion order is irrelevant to `lookup`);
the mutex is irrelevant to the sequential semantics modelled here. -/
structure Container where
  componentsByName : List (String × ComponentInfo)
  componentsByType : List (TypeId × ComponentInfo)
  components : List ComponentInfo
  started : Bool
deriving DecidableEq, Repr

/-- `NewContainer`. -/
def newContainer : Container :=
  { componentsByName := [], componentsByType := [], components := [], started := false }

/-- Mirror of `Container.registerComponent`: fail (returning the container
unchanged together with the colliding name, modelling the
DuplicateNameError) if the name is taken, otherwise index the descriptor
by name and append it to the ordered collection. -/
def registerComponent (c : Container) (info : ComponentInfo) :
    Container × Option String :=
  match c.componentsByName.lookup info.name with
  | some _ => (c, some info.name)
  | none =>
      ({ c with
          componentsByName := c.componentsByName ++ [(info.name, info)],
          components := c.components ++ [info] }, none)

/-- `Container.getByName` / `getByNameUnsafe` (the locked and unlocked
variants run the same lookup): `none` models the NotFoundError. -/
def getByNameUnsafe (c : Container) (name : String) : Option Instance :=
  (c.componentsByName.lookup name).map (·.inst)

/-- `Container.getByType` / `getByTypeUnsafe`: `none` models the
NotFoundError. -/
def getByTypeUnsafe (c : Container) (ty : TypeId) : Option Instance :=
  (c.componentsByType.lookup ty).map (·.inst)

/-- Register a batch of descriptors in order, dropping the ones that fail
(used only to build concrete reachable container states). -/
def registerAll (l : List ComponentInfo) : Container :=
  l.foldl (fun c i => (registerComponent c i).1) newContainer

/-- Claim C7: registering a descriptor whose name collides with an
already-registered one fails with the duplicate-name error and leaves the
store untouched: the first registration is still what the name resolves
to, and the new descriptor is neither appended to the ordered collection
nor indexed by name. -/
theorem C7_duplicate_name_rejected (c : Container) (info prev : ComponentInfo)
    (h : c.componentsByName.lookup info.name = some prev) :
    registerComponent c info = (c, some info.name) ∧
    ((registerComponent c info).1.componentsByName.lookup info.name = some prev) ∧
    (registerComponent c info).1.components = c.components := by
  simp [registerComponent, h]

/-- A plain instance with no lifecycle callbacks, used for concrete test
states. -/
def instA : Instance :=
  { typeId := 1, assignSet := [1], initCb := none, startCb := none, stopCb := none }

/-- Descriptor for `instA` under name `A`. -/
def infoA : ComponentInfo :=
  { inst := instA, instanceType := some 1, name := "A", priority := 0,
    exportedTypes := [1], isPrimary := false }

/-- A second descriptor reusing the name `A` (different priority), for the
duplicate-registration witness. -/
def infoA2 : ComponentInfo := { infoA with priority := 5 }

/-- Witness for C7 at a concrete store: re-registering the name `A`
returns the duplicate-name error and the unchanged store. -/
theorem C7_duplicate_name_rejected_witness :
    registerComponent (registerAll [infoA]) infoA2 = (registerAll [infoA], some "A") :=
  (C7_duplicate_name_rejected (registerAll [infoA]) infoA2 infoA (by decide)).1

/-- The group `validateTypeRegistrations` builds for one exported
capability: every descriptor contributes one occurrence per entry of its
`ExportedTypes` slice that equals `ty` (Go appends the descriptor once per
occurrence, so a duplicated entry yields a duplicated group member). -/
def typeGroup (comps : List ComponentInfo) (ty : TypeId) : List ComponentInfo :=
  comps.flatMap fun info => (info.exportedTypes.filter (· == ty)).map fun _ => info

/-- Per-capability outcome of `validateTypeRegistrations`. -/
inductive ResolveOutcome where
  | selected (info : ComponentInfo)
  | ambiguous (names : List String)
  | conflict (names : List String)
  | absent
deriving DecidableEq, Repr

/-- Per-capability mirror of the body of `validateTypeRegistrations` in
`boot/container.go`: a single-element group is selected unconditionally;
otherwise the group is filtered to the primaries, and zero primaries is
the ambiguous error (naming the whole group), several primaries is the
conflicting-primary error (naming the primaries), and exactly one primary
is selected.  (Go iterates the groups in nondeterministic map order; only
the per-capability outcome is well-defined, which is what the claims
state.) -/
def resolveType (comps : List ComponentInfo) (ty : TypeId) : ResolveOutcome :=
  match typeGroup comps ty with
  | [] => .absent
  | [single] => .selected single
  | g₀ :: g₁ :: gs =>
      match (g₀ :: g₁ :: gs).filter (·.isPrimary) with
      | [] => .ambiguous ((g₀ :: g₁ :: gs).map (·.name))
      | [p] => .selected p
      | p₀ :: p₁ :: ps => .conflict ((p₀ :: p₁ :: ps).map (·.name))

/-- A descriptor that lists capability `7` twice in its exported slice
(reachable, e.g. by calling `Export` with the instance's own type). -/
def infoDupExport : ComponentInfo :=
  { inst := instA, instanceType := some 1, name := "A", priority := 0,
    exportedTypes := [7, 7], isPrimary := false }

/-- Counterexample to claim C1 as stated: in the store holding only
`infoDupExport`, exactly one descriptor exports capability `7`, yet
resolution does not select that provider — it fails with the ambiguity
error naming the provider twice, because the group is built per export
occurrence rather than per descriptor. -/
theorem C1_counterexample :
    (([infoDupExport].filter (fun d => d.exportedTypes.contains 7)).length = 1) ∧
    resolveType [infoDupExport] 7 = .ambiguous ["A", "A"] ∧
    (∀ d, resolveType [infoDupExport] 7 ≠ .selected d) := by
  refine ⟨by decide, by decide, ?_⟩
  intro d h
  rw [show resolveType [infoDupExport] 7 = ResolveOutcome.ambiguous ["A", "A"] from by
    decide] at h
  simp at h

/-- Claim C1 (amended): the trichotomy holds with providers counted per
export occurrence (a capability listed twice by one descriptor counts
twice): a one-occurrence group is selected unconditionally regardless of
`isPrimary`; a group of two or more occurrences selects the unique
primary, fails with the ambiguity error naming every group member when no
primary is flagged, and fails with the conflicting-primary error naming
every primary when several are flagged. -/
theorem C1_resolution_amended (comps : List ComponentInfo) (ty : TypeId) :
    (∀ d, typeGroup comps ty = [d] → resolveType comps ty = .selected d) ∧
    (2 ≤ (typeGroup comps ty).length →
      (((typeGroup comps ty).filter (·.isPrimary)).length = 0 →
          resolveType comps ty = .ambiguous ((typeGroup comps ty).map (·.name))) ∧
      (∀ p, (typeGroup comps ty).filter (·.isPrimary) = [p] →
          resolveType comps ty = .selected p) ∧
      (2 ≤ ((typeGroup comps ty).filter (·.isPrimary)).length →
          resolveType comps ty =
            .conflict (((typeGroup comps ty).filter (·.isPrimary)).map (·.name)))) := by
  constructor
  · intro d hd
    simp [resolveType, hd]
  · intro hlen
    rcases hg : typeGroup comps ty with _ | ⟨a, _ | ⟨b, l⟩⟩
    · rw [hg] at hlen; simp at hlen
    · rw [hg] at hlen; simp at hlen
    · refine ⟨?_, ?_, ?_⟩
      · intro h0
        rcases hf : (a :: b :: l).filter (·.isPrimary) with _ | ⟨p, ps⟩
        · simp [resolveType, hg, hf]
        · rw [hf] at h0; simp at h0
      · intro p hp
        simp [resolveType, hg, hp]
      · intro h2
        rcases hf : (a :: b :: l).filter (·.isPrimary) with _ | ⟨p, _ | ⟨q, ps⟩⟩
        · rw [hf] at h2; simp at h2
        · rw [hf] at h2; simp at h2
        · simp [resolveType, hg, hf]

/-- Primary provider of capability `3`, named `B`. -/
def infoB : ComponentInfo :=
  { inst := instA, instanceType := some 1, name := "B", priority := 0,
    exportedTypes := [3], isPrimary := true }

/-- Non-primary provider of capability `3`, named `C`. -/
def infoC : ComponentInfo :=
  { inst := instA, instanceType := some 1, name := "C", priority := 0,
    exportedTypes := [3], isPrimary := false }

/-- Witness for the amended C1: with two providers of capability `3` and
exactly one flagged primary, resolution selects the primary. -/
theorem C1_resolution_amended_witness :
    resolveType [infoB, infoC] 3 = .selected infoB :=
  ((C1_resolution_amended [infoB, infoC] 3).2 (by decide)).2.1 infoB (by decide)

/-! ### Field injection (`injectComponentUnsafe` / `resolveDependencyUnsafe`) -/

/-- The length/suffix test both `injectComponentUnsafe` and
`resolveDependencyUnsafe` perform:
`len(tag) > 9 && tag[len(tag)-9:] == ",optional"`.  Go compares bytes and
this model compares characters, which agree because the suffix is ASCII
and UTF-8 is self-synchronizing. -/
def hasOptionalSuffix (tag : String) : Bool :=
  tag.length > 9 && tag.data.drop (tag.length - 9) == ",optional".data

/-- `tag[:len(tag)-9]`, the qualifier with the `,optional` suffix
stripped. -/
def stripOptionalSuffix (tag : String) : String :=
  ⟨tag.data.take (tag.length - 9)⟩

/-- The optional test of `injectComponentUnsafe` (which decides whether a
resolution failure is swallowed):
`tag == "optional" || tag == "?" || (len(tag) > 9 && tag[len(tag)-9:] == ",optional")`. -/
def isOptionalTag (tag : String) : Bool :=
  tag == "optional" || tag == "?" || hasOptionalSuffix tag

/-- Resolution failures of `resolveDependencyUnsafe` (the Go code returns
`error` values carrying exactly these data). -/
inductive ResolveErr where
  | notFoundByName (name : String)
  | notFoundByType (ty : TypeId)
  | typeMismatch (name : String) (ty : TypeId)
deriving DecidableEq, Repr

/-- Mirror of `Container.resolveDependencyUnsafe` in `boot/container.go`.
`.ok none` models the Go `(nil, nil)` return (optional miss: leave the
field unset, no error). -/
def resolveDependencyUnsafe (c : Container) (fieldType : TypeId) (qualifier : String) :
    Except ResolveErr (Option Instance) :=
  if qualifier == "optional" || qualifier == "?" then
    match getByTypeUnsafe c fieldType with
    | none => .ok none
    | some dep => .ok (some dep)
  else
    let componentName :=
      if hasOptionalSuffix qualifier then stripOptionalSuffix qualifier else qualifier
    let isOptional := hasOptionalSuffix qualifier
    if componentName == "required" || componentName == "" then
      match getByTypeUnsafe c fieldType with
      | none => .error (.notFoundByType fieldType)
      | some dep => .ok (some dep)
    else
      match getByNameUnsafe c componentName with
      | none => if isOptional then .ok none else .error (.notFoundByName componentName)
      | some comp =>
          if comp.assignableTo fieldType then .ok (some comp)
          else if isOptional then .ok none
          else .error (.typeMismatch componentName fieldType)

/-- The observable outcome of one directive as `injectComponentUnsafe`
realizes it for a settable tagged field: a resolution failure is swallowed
(field left unset, like an optional miss) exactly when `isOptionalTag`
holds for the raw tag, otherwise it is fatal. -/
def directiveOutcome (c : Container) (fieldType : TypeId) (tag : String) :
    Except ResolveErr (Option Instance) :=
  match resolveDependencyUnsafe c fieldType tag with
  | .error e => if isOptionalTag tag then .ok none else .error e
  | .ok r => .ok r

/-- Directive semantics exactly as claim C2 words them: (1) `"optional"`
or `"?"` resolves by the declared field capability with any failure
swallowed; (2) any string ending in `",optional"` strips that suffix and
resolves by the remaining literal name, with failure (absence or
capability mismatch) swallowed; (3) `"required"` or the empty string
resolves by the declared capability, fatally on failure; (4) any other
literal string resolves by that name, fatally on absence or mismatch. -/
def directiveOutcomeClaim (c : Container) (fieldType : TypeId) (tag : String) :
    Except ResolveErr (Option Instance) :=
  if tag == "optional" || tag == "?" then
    .ok (getByTypeUnsafe c fieldType)
  else if 9 ≤ tag.length && tag.data.drop (tag.length - 9) == ",optional".data then
    let nm := stripOptionalSuffix tag
    .ok (match getByNameUnsafe c nm with
         | none => none
         | some comp => if comp.assignableTo fieldType then some comp else none)
  else if tag == "required" || tag == "" then
    match getByTypeUnsafe c fieldType with
    | none => .error (.notFoundByType fieldType)
    | some dep => .ok (some dep)
  else
    match getByNameUnsafe c tag with
    | none => .error (.notFoundByName tag)
    | some comp =>
        if comp.assignableTo fieldType then .ok (some comp)
        else .error (.typeMismatch tag fieldType)

/-- Directive semantics as amended: the `",optional"` suffix only fires
when at least one character precedes it (the code requires length
strictly greater than nine), and the stripped remainder is re-read as the
name portion of the directive — a remainder of `"required"` resolves by
the declared field capability rather than by literal name — with failure
swallowed in every suffixed case. -/
def directiveOutcomeAmended (c : Container) (fieldType : TypeId) (tag : String) :
    Except ResolveErr (Option Instance) :=
  if tag == "optional" || tag == "?" then
    .ok (getByTypeUnsafe c fieldType)
  else if hasOptionalSuffix tag then
    let nm := stripOptionalSuffix tag
    if nm == "required" then
      .ok (getByTypeUnsafe c fieldType)
    else
      .ok (match getByNameUnsafe c nm with
           | none => none
           | some comp => if comp.assignableTo fieldType then some comp else none)
  else if tag == "required" || tag == "" then
    match getByTypeUnsafe c fieldType with
    | none => .error (.notFoundByType fieldType)
    | some dep => .ok (some dep)
  else
    match getByNameUnsafe c tag with
    | none => .error (.notFoundByName tag)
    | some comp =>
        if comp.assignableTo fieldType then .ok (some comp)
        else .error (.typeMismatch tag fieldType)

/-- A qualifier that passes the `,optional` length guard keeps at least
one character after stripping. -/
theorem stripOptionalSuffix_ne_empty (tag : String) (h : hasOptionalSuffix tag = true) :
    (stripOptionalSuffix tag == "") = false := by
  unfold hasOptionalSuffix at h
  rw [Bool.and_eq_true, decide_eq_true_iff] at h
  obtain ⟨hlen, _⟩ := h
  rw [beq_eq_false_iff_ne]
  intro heq
  have hdata := congrArg String.data heq
  simp only [stripOptionalSuffix] at hdata
  rw [List.take_eq_nil_iff] at hdata
  have hl : tag.length = tag.data.length := rfl
  rcases hdata with h0 | h0
  · omega
  · rw [hl, h0] at hlen
    simp at hlen

/-- Claim C2 (amended): the wiring-directive precedence as realized by
`injectComponentUnsafe`/`resolveDependencyUnsafe`.  It differs from the
claim as written only in the `,optional` clause: the suffix fires only
when some character precedes it, and the stripped remainder is re-read as
the name portion of the directive (so a remainder of `"required"`
resolves by the declared capability, not by literal name), failure still
being swallowed. -/
theorem C2_directive_precedence_amended (c : Container) (fieldType : TypeId) (tag : String) :
    directiveOutcome c fieldType tag = directiveOutcomeAmended c fieldType tag := by
  by_cases h1 : (tag == "optional" || tag == "?") = true
  · simp only [directiveOutcome, directiveOutcomeAmended, resolveDependencyUnsafe, h1,
      if_true]
    cases getByTypeUnsafe c fieldType <;> rfl
  · rw [Bool.not_eq_true] at h1
    rw [Bool.or_eq_false_iff] at h1
    obtain ⟨h1a, h1b⟩ := h1
    by_cases h2 : hasOptionalSuffix tag = true
    · have hopt : isOptionalTag tag = true := by
        simp [isOptionalTag, h1a, h1b, h2]
      have hne := stripOptionalSuffix_ne_empty tag h2
      by_cases h3 : (stripOptionalSuffix tag == "required") = true
      · simp only [directiveOutcome, directiveOutcomeAmended, resolveDependencyUnsafe,
          h1a, h1b, h2, h3, hne, hopt, Bool.or_self, Bool.false_or, Bool.or_false,
          if_true, if_false, Bool.false_eq_true, ite_false, ite_true]
        cases getByTypeUnsafe c fieldType <;> rfl
      · rw [Bool.not_eq_true] at h3
        simp only [directiveOutcome, directiveOutcomeAmended, resolveDependencyUnsafe,
          h1a, h1b, h2, h3, hne, hopt, Bool.or_self, Bool.false_or, Bool.or_false,
          if_true, if_false, Bool.false_eq_true, ite_false, ite_true]
        cases getByNameUnsafe c (stripOptionalSuffix tag) with
        | none => rfl
        | some comp => cases hcomp : comp.assignableTo fieldType <;> simp [hcomp]
    · rw [Bool.not_eq_true] at h2
      have hopt : isOptionalTag tag = false := by
        simp [isOptionalTag, h1a, h1b, h2]
      by_cases h4 : (tag == "required" || tag == "") = true
      · simp only [directiveOutcome, directiveOutcomeAmended, resolveDependencyUnsafe,
          h1a, h1b, h2, h4, hopt, Bool.or_self, Bool.false_or, Bool.or_false,
          if_true, if_false, Bool.false_eq_true, ite_false, ite_true]
        cases getByTypeUnsafe c fieldType <;> rfl
      · rw [Bool.not_eq_true] at h4
        simp only [directiveOutcome, directiveOutcomeAmended, resolveDependencyUnsafe,
          h1a, h1b, h2, h4, hopt, Bool.or_self, Bool.false_or, Bool.or_false,
          if_true, if_false, Bool.false_eq_true, ite_false, ite_true]
        cases getByNameUnsafe c tag with
        | none => rfl
        | some comp => cases hcomp : comp.assignableTo fieldType <;> simp [hcomp]

/-- Counterexample to claim C2 as stated: the directive string
`",optional"` does end in `",optional"`, so the claim requires the suffix
to be stripped and the failure swallowed, but the code's length guard
(`len > 9`) does not fire and the whole string is treated as a required
literal component name, failing fatally on an empty container. -/
theorem C2_counterexample :
    directiveOutcome newContainer 0 ",optional" = .error (.notFoundByName ",optional") ∧
    directiveOutcomeClaim newContainer 0 ",optional" = .ok none ∧
    directiveOutcome newContainer 0 ",optional" ≠
      directiveOutcomeClaim newContainer 0 ",optional" := by
  refine ⟨by rfl, by rfl, ?_⟩
  intro h
  rw [show directiveOutcome newContainer 0 ",optional" =
        .error (.notFoundByName ",optional") from rfl] at h
  rw [show directiveOutcomeClaim newContainer 0 ",optional" = .ok none from rfl] at h
  simp at h

/-- One injectable struct field: its name, declared type, `autowire` tag
(`none` when `Tag.Lookup` finds no tag), settability (`reflect` can only
set exported fields), and current value (`none` is the zero value). -/
structure StructField where
  fname : String
  declType : TypeId
  autowireTag : Option String
  canSet : Bool
  value : Option Instance
deriving DecidableEq, Repr

/-- Fatal injection failures.  `autowireFailed` is the Go error
`failed to autowire required field %s: %w`.  `setPanic` models the panic
`reflect.Value.Set` raises when the resolved dependency is not assignable
to the field (the Go code performs no assignability check on the by-type
path before calling `Set`). -/
inductive InjectErr where
  | autowireFailed (fname : String) (e : ResolveErr)
  | setPanic (fname : String)
deriving DecidableEq, Repr

/-- Mirror of the field loop of `Container.injectComponentUnsafe`:
untagged and non-settable fields are skipped; a resolution failure is
swallowed when the tag is optional and aborts the component otherwise; a
non-nil resolved dependency is stored into the field. -/
def injectFields (c : Container) : List StructField → Except InjectErr (List StructField)
  | [] => .ok []
  | f :: rest =>
      match f.autowireTag with
      | none => (injectFields c rest).map (f :: ·)
      | some tag =>
          if f.canSet = false then (injectFields c rest).map (f :: ·)
          else
            match resolveDependencyUnsafe c f.declType tag with
            | .error e =>
                if isOptionalTag tag then (injectFields c rest).map (f :: ·)
                else .error (.autowireFailed f.fname e)
            | .ok none => (injectFields c rest).map (f :: ·)
            | .ok (some dep) =>
                if dep.assignableTo f.declType then
                  (injectFields c rest).map (fun l => { f with value := some dep } :: l)
                else .error (.setPanic f.fname)

/-- Inversion for `Except.map` landing in `.ok`. -/
theorem except_map_eq_ok {ε α β : Type} (g : α → β) (e : Except ε α) (b : β)
    (h : e.map g = .ok b) : ∃ a, e = .ok a ∧ b = g a := by
  cases e with
  | error err => simp [Except.map] at h
  | ok a =>
      refine ⟨a, rfl, ?_⟩
      simp only [Except.map] at h
      exact (Except.ok.inj h).symm

/-- `resolveDependencyUnsafe` answers `(nil, nil)` only for directives the
injection loop also treats as optional. -/
theorem resolve_ok_none_isOptional (c : Container) (ft : TypeId) (tag : String)
    (h : resolveDependencyUnsafe c ft tag = .ok none) : isOptionalTag tag = true := by
  unfold resolveDependencyUnsafe at h
  by_cases h1 : (tag == "optional" || tag == "?") = true
  · rcases Bool.or_eq_true_iff.mp h1 with ha | hb
    · simp [isOptionalTag, ha]
    · simp [isOptionalTag, hb]
  · rw [if_neg h1] at h
    by_cases h2 : hasOptionalSuffix tag = true
    · simp [isOptionalTag, h2]
    · rw [Bool.not_eq_true] at h2
      simp only [h2, Bool.false_eq_true, if_false, ite_false] at h
      by_cases h4 : ((tag == "required" || tag == "") = true)
      · rw [if_pos h4] at h
        cases hg : getByTypeUnsafe c ft <;> simp [hg] at h
      · rw [if_neg h4] at h
        cases hg : getByNameUnsafe c tag with
        | none => simp [hg] at h
        | some comp =>
            simp only [hg] at h
            cases hc : comp.assignableTo ft <;> simp [hc] at h

/-- A settable field wired by the (required) empty directive, used for the
C5 witness. -/
def reqField : StructField :=
  { fname := "Svc", declType := 1, autowireTag := some "", canSet := true, value := none }

/-- A settable field with the optional directive, used for the unset-side
of C5. -/
def optDemoField : StructField :=
  { fname := "Cache", declType := 0, autowireTag := some "optional", canSet := true,
    value := none }

/-- A container whose capability index maps capability `1` to `instA`. -/
def cWired : Container :=
  { componentsByName := [("A", infoA)], componentsByType := [(1, infoA)],
    components := [infoA], started := false }

/-- A required tagged field on an unexported (non-settable) struct member:
reachable in Go, skipped silently by the injection loop. -/
def lockedField : StructField :=
  { fname := "db", declType := 0, autowireTag := some "", canSet := false, value := none }

/-- Counterexample to claim C5 as stated: on an empty container, injection
of a component whose only field carries the required empty directive but
is not settable completes without error, yet the field still holds its
zero value afterwards. -/
theorem C5_counterexample :
    injectFields newContainer [lockedField] = .ok [lockedField] ∧
    isOptionalTag "" = false ∧ lockedField.value = none :=
  ⟨rfl, rfl, rfl⟩

/-- Claim C5 (amended): when injection of a component completes without
error, every *settable* field carrying a required directive holds a
non-nil, capability-compatible reference; fields with optional directives
may remain unset (second conjunct: a concrete optional field left at its
zero value by an error-free injection). -/
theorem C5_required_fields_amended :
    (∀ (c : Container) (fields fields2 : List StructField),
      injectFields c fields = .ok fields2 →
      ∀ (i : Nat) (f : StructField) (tag : String),
        fields[i]? = some f → f.autowireTag = some tag →
        isOptionalTag tag = false → f.canSet = true →
        ∃ inst : Instance,
          fields2[i]? = some { f with value := some inst } ∧
          inst.assignableTo f.declType = true) ∧
    (injectFields newContainer [optDemoField] = .ok [optDemoField] ∧
      optDemoField.autowireTag = some "optional" ∧ optDemoField.value = none) := by
  constructor
  · intro c fields
    induction fields with
    | nil =>
        intro fields2 _ i f tag hget
        simp at hget
    | cons f0 rest ih =>
        intro fields2 hinj i f tag hget htag hreq hset
        rw [injectFields] at hinj
        rcases hft : f0.autowireTag with _ | tag0 <;> simp only [hft] at hinj
        · obtain ⟨rest2, hrest, hcons⟩ := except_map_eq_ok _ _ _ hinj
          subst hcons
          cases i with
          | zero =>
              simp at hget
              subst hget
              rw [hft] at htag
              cases htag
          | succ n =>
              simp only [List.getElem?_cons_succ] at hget ⊢
              exact ih rest2 hrest n f tag hget htag hreq hset
        · by_cases hcs : f0.canSet = false
          · rw [if_pos hcs] at hinj
            obtain ⟨rest2, hrest, hcons⟩ := except_map_eq_ok _ _ _ hinj
            subst hcons
            cases i with
            | zero =>
                simp at hget
                subst hget
                rw [hset] at hcs
                cases hcs
            | succ n =>
                simp only [List.getElem?_cons_succ] at hget ⊢
                exact ih rest2 hrest n f tag hget htag hreq hset
          · rw [if_neg hcs] at hinj
            rcases hres : resolveDependencyUnsafe c f0.declType tag0 with e | (_ | dep)
            · simp only [hres] at hinj
              by_cases hop : isOptionalTag tag0 = true
              · rw [if_pos hop] at hinj
                obtain ⟨rest2, hrest, hcons⟩ := except_map_eq_ok _ _ _ hinj
                subst hcons
                cases i with
                | zero =>
                    simp at hget
                    subst hget
                    rw [hft] at htag
                    rw [← Option.some.inj htag] at hreq
                    rw [hop] at hreq
                    simp at hreq
                | succ n =>
                    simp only [List.getElem?_cons_succ] at hget ⊢
                    exact ih rest2 hrest n f tag hget htag hreq hset
              · rw [if_neg hop] at hinj
                cases hinj
            · simp only [hres] at hinj
              obtain ⟨rest2, hrest, hcons⟩ := except_map_eq_ok _ _ _ hinj
              subst hcons
              cases i with
              | zero =>
                  simp at hget
                  subst hget
                  rw [hft] at htag
                  rw [← Option.some.inj htag] at hreq
                  rw [resolve_ok_none_isOptional _ _ _ hres] at hreq
                  simp at hreq
              | succ n =>
                  simp only [List.getElem?_cons_succ] at hget ⊢
                  exact ih rest2 hrest n f tag hget htag hreq hset
            · simp only [hres] at hinj
              by_cases hassign : dep.assignableTo f0.declType = true
              · rw [if_pos hassign] at hinj
                obtain ⟨rest2, hrest, hcons⟩ := except_map_eq_ok _ _ _ hinj
                subst hcons
                cases i with
                | zero =>
                    simp at hget
                    subst hget
                    exact ⟨dep, by simp [hft], hassign⟩
                | succ n =>
                    simp only [List.getElem?_cons_succ] at hget ⊢
                    exact ih rest2 hrest n f tag hget htag hreq hset
              · rw [if_neg hassign] at hinj
                cases hinj
  · exact ⟨rfl, rfl, rfl⟩

/-- Witness for the amended C5: on `cWired`, the required empty directive
on the settable field `reqField` leaves the field holding `instA`, which
is assignable to the declared capability. -/
theorem C5_required_fields_amended_witness :
    ∃ inst : Instance,
      [{ reqField with value := some instA }][0]? = some { reqField with value := some inst } ∧
      inst.assignableTo reqField.declType = true :=
  C5_required_fields_amended.1 cWired [reqField] [{ reqField with value := some instA }]
    rfl 0 reqField "" rfl rfl rfl rfl

/-! ### Priority ordering (`getSortedComponents`)

`sort.Slice` promises only that the result is sorted by the comparator;
for slices of fewer than twelve elements its pdqsort implementation runs
plain insertion sort, which is what `sortSlice` models (stable,
deterministic).  All ordering claims are settled against this model. -/

/-- One insertion step: place `x` before the first element `y` of the
already-sorted accumulator for which `less x y`. -/
def insertStep {α : Type} (less : α → α → Bool) (x : α) : List α → List α
  | [] => [x]
  | y :: ys => if less x y then x :: y :: ys else y :: insertStep less x ys

/-- Insertion sort over a list, left to right. -/
def sortSlice {α : Type} (less : α → α → Bool) (l : List α) : List α :=
  l.foldl (fun acc x => insertStep less x acc) []

/-- Mirror of `Container.getSortedComponents`: a copy of the components
slice sorted with Go's comparator — ascending (`Priority <`) for `Stop`,
descending (`Priority >`) for `Init`/`Start`. -/
def getSortedComponents (c : Container) (ascending : Bool) : List ComponentInfo :=
  sortSlice
    (fun a b =>
      if ascending then decide (a.priority < b.priority)
      else decide (a.priority > b.priority))
    c.components

theorem insertStep_perm {α : Type} (less : α → α → Bool) (x : α) (l : List α) :
    List.Perm (insertStep less x l) (x :: l) := by
  induction l with
  | nil => exact List.Perm.refl [x]
  | cons y ys ih =>
      unfold insertStep
      by_cases h : less x y = true
      · rw [if_pos h]
      · rw [if_neg h]
        exact (ih.cons y).trans (List.Perm.swap x y ys)

theorem sortSlice_foldl_perm {α : Type} (less : α → α → Bool) (l acc : List α) :
    List.Perm (l.foldl (fun acc x => insertStep less x acc) acc) (l ++ acc) := by
  induction l generalizing acc with
  | nil => simp
  | cons x xs ih =>
      simp only [List.foldl_cons, List.cons_append]
      exact ((ih (insertStep less x acc)).trans
        (List.Perm.append_left xs (insertStep_perm less x acc))).trans
        List.perm_middle

/-- The sorted copy is a permutation of the registered components. -/
theorem sortSlice_perm {α : Type} (less : α → α → Bool) (l : List α) :
    List.Perm (sortSlice less l) l := by
  simpa using sortSlice_foldl_perm less l []

/-- Sortedness in comparator terms: no later element strictly precedes an
earlier one. -/
def SortedBy {α : Type} (less : α → α → Bool) (l : List α) : Prop :=
  l.Pairwise (fun a b => less b a = false)

theorem insertStep_sorted {α : Type} (less : α → α → Bool)
    (hcomp : ∀ x y z, less x y = true → less z y = false → less z x = false)
    (hasym : ∀ x y, less x y = true → less y x = false)
    (x : α) (l : List α) (hl : SortedBy less l) :
    SortedBy less (insertStep less x l) := by
  induction l with
  | nil => simp [SortedBy, insertStep]
  | cons y ys ih =>
      rw [SortedBy, List.pairwise_cons] at hl
      obtain ⟨hy, hys⟩ := hl
      unfold insertStep
      by_cases h : less x y = true
      · rw [if_pos h]
        rw [SortedBy, List.pairwise_cons]
        refine ⟨?_, List.pairwise_cons.mpr ⟨hy, hys⟩⟩
        intro z hz
        rcases List.mem_cons.mp hz with rfl | hz2
        · exact hasym x z h
        · exact hcomp x y z h (hy z hz2)
      · rw [if_neg h]
        rw [Bool.not_eq_true] at h
        rw [SortedBy, List.pairwise_cons]
        refine ⟨?_, ih hys⟩
        intro z hz
        rcases List.mem_cons.mp ((insertStep_perm less x ys).mem_iff.mp hz) with rfl | hz2
        · exact h
        · exact hy z hz2

theorem sortSlice_foldl_sorted {α : Type} (less : α → α → Bool)
    (hcomp : ∀ x y z, less x y = true → less z y = false → less z x = false)
    (hasym : ∀ x y, less x y = true → less y x = false)
    (l : List α) :
    ∀ acc, SortedBy less acc →
      SortedBy less (l.foldl (fun acc x => insertStep less x acc) acc) := by
  induction l with
  | nil => intro acc hacc; simpa using hacc
  | cons x xs ih =>
      intro acc hacc
      simp only [List.foldl_cons]
      exact ih _ (insertStep_sorted less hcomp hasym x acc hacc)

theorem sortSlice_sorted {α : Type} (less : α → α → Bool)
    (hcomp : ∀ x y z, less x y = true → less z y = false → less z x = false)
    (hasym : ∀ x y, less x y = true → less y x = false)
    (l : List α) : SortedBy less (sortSlice less l) :=
  sortSlice_foldl_sorted less hcomp hasym l [] (by simp [SortedBy])

theorem insertStep_filter {α : Type} (less : α → α → Bool) (q : α → Bool)
    (hirr : ∀ y, less y y = false)
    (hq2 : ∀ x y z, less x y = true → less z y = false → q x = true → q z = false)
    (x : α) (l : List α) (hl : SortedBy less l) :
    (insertStep less x l).filter q =
      if q x = true then l.filter q ++ [x] else l.filter q := by
  induction l with
  | nil =>
      cases hqx : q x <;> simp [insertStep, List.filter, hqx]
  | cons y ys ih =>
      rw [SortedBy, List.pairwise_cons] at hl
      obtain ⟨hy, hys⟩ := hl
      unfold insertStep
      by_cases h : less x y = true
      · rw [if_pos h]
        by_cases hqx : q x = true
        · rw [if_pos hqx]
          have hqy : q y = false := hq2 x y y h (hirr y) hqx
          have hzs : ∀ z ∈ ys, q z = false := fun z hz => hq2 x y z h (hy z hz) hqx
          have hfe : ys.filter q = [] := by
            rw [List.filter_eq_nil_iff]
            intro z hz
            simp [hzs z hz]
          simp [List.filter_cons, hqx, hqy, hfe]
        · rw [if_neg hqx]
          rw [Bool.not_eq_true] at hqx
          simp [List.filter_cons, hqx]
      · rw [if_neg h]
        rw [List.filter_cons, List.filter_cons, ih hys]
        cases hqx : q x <;> cases hqy : q y <;> simp [hqx, hqy]

theorem sortSlice_foldl_filter {α : Type} (less : α → α → Bool) (q : α → Bool)
    (hcomp : ∀ x y z, less x y = true → less z y = false → less z x = false)
    (hasym : ∀ x y, less x y = true → less y x = false)
    (hirr : ∀ y, less y y = false)
    (hq2 : ∀ x y z, less x y = true → less z y = false → q x = true → q z = false)
    (l : List α) :
    ∀ acc, SortedBy less acc →
      (l.foldl (fun acc x => insertStep less x acc) acc).filter q =
        acc.filter q ++ l.filter q := by
  induction l with
  | nil => intro acc _; simp
  | cons x xs ih =>
      intro acc hacc
      simp only [List.foldl_cons]
      rw [ih _ (insertStep_sorted less hcomp hasym x acc hacc)]
      rw [insertStep_filter less q hirr hq2 x acc hacc]
      cases hqx : q x <;> simp [List.filter_cons, hqx]

/-- Stability of the modelled sort: the subsequence of the result at any
fixed priority-class (any `q` that the comparator never separates) is the
corresponding subsequence of the input, in input order. -/
theorem sortSlice_filter {α : Type} (less : α → α → Bool) (q : α → Bool)
    (hcomp : ∀ x y z, less x y = true → less z y = false → less z x = false)
    (hasym : ∀ x y, less x y = true → less y x = false)
    (hirr : ∀ y, less y y = false)
    (hq2 : ∀ x y z, less x y = true → less z y = false → q x = true → q z = false)
    (l : List α) :
    (sortSlice less l).filter q = l.filter q := by
  simpa using sortSlice_foldl_filter less q hcomp hasym hirr hq2 l [] (by simp [SortedBy])

/-- The descending comparator Go passes to `sort.Slice` for `Init`/`Start`
order. -/
def descLess (a b : ComponentInfo) : Bool := decide (a.priority > b.priority)

/-- The ascending comparator Go passes to `sort.Slice` for `Stop` order. -/
def ascLess (a b : ComponentInfo) : Bool := decide (a.priority < b.priority)

theorem getSorted_desc (c : Container) :
    getSortedComponents c false = sortSlice descLess c.components := rfl

theorem getSorted_asc (c : Container) :
    getSortedComponents c true = sortSlice ascLess c.components := rfl

theorem descLess_comp : ∀ x y z : ComponentInfo,
    descLess x y = true → descLess z y = false → descLess z x = false := by
  intro x y z hxy hzy
  simp only [descLess, decide_eq_true_eq, decide_eq_false_iff_not, not_lt] at *
  omega

theorem descLess_asym : ∀ x y : ComponentInfo,
    descLess x y = true → descLess y x = false := by
  intro x y hxy
  simp only [descLess, decide_eq_true_eq, decide_eq_false_iff_not, not_lt] at *
  omega

theorem descLess_irr : ∀ y : ComponentInfo, descLess y y = false := by
  intro y
  simp [descLess]

theorem descLess_q2 (p : Int) : ∀ x y z : ComponentInfo,
    descLess x y = true → descLess z y = false →
    (x.priority == p) = true → (z.priority == p) = false := by
  intro x y z hxy hzy hx
  simp only [descLess, decide_eq_true_eq, decide_eq_false_iff_not, not_lt,
    beq_iff_eq, beq_eq_false_iff_ne, ne_eq] at *
  omega

theorem ascLess_comp : ∀ x y z : ComponentInfo,
    ascLess x y = true → ascLess z y = false → ascLess z x = false := by
  intro x y z hxy hzy
  simp only [ascLess, decide_eq_true_eq, decide_eq_false_iff_not, not_lt] at *
  omega

theorem ascLess_asym : ∀ x y : ComponentInfo,
    ascLess x y = true → ascLess y x = false := by
  intro x y hxy
  simp only [ascLess, decide_eq_true_eq, decide_eq_false_iff_not, not_lt] at *
  omega

theorem ascLess_irr : ∀ y : ComponentInfo, ascLess y y = false := by
  intro y
  simp [ascLess]

theorem ascLess_q2 (p : Int) : ∀ x y z : ComponentInfo,
    ascLess x y = true → ascLess z y = false →
    (x.priority == p) = true → (z.priority == p) = false := by
  intro x y z hxy hzy hx
  simp only [ascLess, decide_eq_true_eq, decide_eq_false_iff_not, not_lt,
    beq_iff_eq, beq_eq_false_iff_ne, ne_eq] at *
  omega

theorem pairwise_lt_of_le_nodup (l : List ComponentInfo)
    (h1 : l.Pairwise (fun a b => a.priority ≤ b.priority))
    (h2 : (l.map (·.priority)).Nodup) :
    l.Pairwise (fun a b => a.priority < b.priority) := by
  have h3 : l.Pairwise (fun a b => a.priority ≠ b.priority) := by
    rw [List.Nodup, List.pairwise_map] at h2
    exact h2
  exact (h1.and h3).imp (fun h => lt_of_le_of_ne h.1 h.2)

/-- Two components sharing priority `1`, registered `A` then `B`. -/
def tieA : ComponentInfo :=
  { inst := instA, instanceType := some 1, name := "A", priority := 1,
    exportedTypes := [1], isPrimary := false }

def tieB : ComponentInfo :=
  { inst := instA, instanceType := some 1, name := "B", priority := 1,
    exportedTypes := [1], isPrimary := false }

def cTie : Container := registerAll [tieA, tieB]

/-- Counterexample to claim C4 as stated: with two components of equal
priority the `Init`/`Start` visit order and the `Stop` visit order are the
same list `[A, B]` (each an independent sort, stable on ties), so the
`Stop` order is not the exact reverse of the `Start` order. -/
theorem C4_counterexample :
    (getSortedComponents cTie false).map (fun d => d.name) = ["A", "B"] ∧
    (getSortedComponents cTie true).map (fun d => d.name) = ["A", "B"] ∧
    getSortedComponents cTie true ≠ (getSortedComponents cTie false).reverse := by
  refine ⟨by decide, by decide, by decide⟩

/-- Claim C4 (amended): `Init`/`Start` visit a permutation of the
registered components sorted by descending priority, stable on ties
(the priority-`p` subsequence is still in registration order); `Stop`
visits a permutation sorted by ascending priority, likewise stable on
ties; the `Stop` order coincides with the exact reverse of the
`Init`/`Start` order when all priorities are distinct, but not in the
presence of ties. -/
theorem C4_visit_order_amended (c : Container) :
    List.Perm (getSortedComponents c false) c.components ∧
    (getSortedComponents c false).Pairwise (fun a b => b.priority ≤ a.priority) ∧
    (∀ p : Int, (getSortedComponents c false).filter (fun d => d.priority == p) =
        c.components.filter (fun d => d.priority == p)) ∧
    List.Perm (getSortedComponents c true) c.components ∧
    (getSortedComponents c true).Pairwise (fun a b => a.priority ≤ b.priority) ∧
    (∀ p : Int, (getSortedComponents c true).filter (fun d => d.priority == p) =
        c.components.filter (fun d => d.priority == p)) ∧
    ((c.components.map (fun d => d.priority)).Nodup →
      getSortedComponents c true = (getSortedComponents c false).reverse) := by
  rw [getSorted_desc, getSorted_asc]
  refine ⟨sortSlice_perm _ _, ?_, ?_, sortSlice_perm _ _, ?_, ?_, ?_⟩
  · exact (sortSlice_sorted descLess descLess_comp descLess_asym c.components).imp
      (fun h => by
        simp only [descLess, decide_eq_false_iff_not, not_lt] at h
        exact h)
  · intro p
    exact sortSlice_filter descLess (fun d => d.priority == p)
      descLess_comp descLess_asym descLess_irr (descLess_q2 p) c.components
  · exact (sortSlice_sorted ascLess ascLess_comp ascLess_asym c.components).imp
      (fun h => by
        simp only [ascLess, decide_eq_false_iff_not, not_lt] at h
        exact h)
  · intro p
    exact sortSlice_filter ascLess (fun d => d.priority == p)
      ascLess_comp ascLess_asym ascLess_irr (ascLess_q2 p) c.components
  · intro hnd
    have hdp := sortSlice_perm descLess c.components
    have hap := sortSlice_perm ascLess c.components
    have hperm : List.Perm (sortSlice ascLess c.components)
        (sortSlice descLess c.components).reverse :=
      (hap.trans hdp.symm).trans (sortSlice descLess c.components).reverse_perm.symm
    have hsa : (sortSlice ascLess c.components).Pairwise
        (fun a b => a.priority < b.priority) := by
      refine pairwise_lt_of_le_nodup _ ?_ ?_
      · exact (sortSlice_sorted ascLess ascLess_comp ascLess_asym c.components).imp
          (fun h => by
            simp only [ascLess, decide_eq_false_iff_not, not_lt] at h
            exact h)
      · exact (hap.map (fun d => d.priority)).nodup_iff.mpr hnd
    have hsd : (sortSlice descLess c.components).reverse.Pairwise
        (fun a b => a.priority < b.priority) := by
      refine pairwise_lt_of_le_nodup _ ?_ ?_
      · rw [List.pairwise_reverse]
        exact (sortSlice_sorted descLess descLess_comp descLess_asym c.components).imp
          (fun h => by
            simp only [descLess, decide_eq_false_iff_not, not_lt] at h
            exact h)
      · rw [List.map_reverse, List.nodup_reverse]
        exact (hdp.map (fun d => d.priority)).nodup_iff.mpr hnd
    haveI : IsAntisymm ComponentInfo (fun a b => a.priority < b.priority) :=
      ⟨fun a b h1 h2 => absurd (lt_trans h1 h2) (lt_irrefl _)⟩
    exact List.eq_of_perm_of_sorted hperm hsa hsd

/-- Components with distinct priorities `2` and `1`, for the C4 witness. -/
def infoHigh : ComponentInfo :=
  { inst := instA, instanceType := some 1, name := "H", priority := 2,
    exportedTypes := [1], isPrimary := false }

def infoLow : ComponentInfo :=
  { inst := instA, instanceType := some 1, name := "L", priority := 1,
    exportedTypes := [1], isPrimary := false }

def cDistinct : Container := registerAll [infoHigh, infoLow]

/-- Witness for the amended C4 at a store with distinct priorities: the
`Stop` order is the exact reverse of the `Init`/`Start` order. -/
theorem C4_visit_order_amended_witness :
    getSortedComponents cDistinct true = (getSortedComponents cDistinct false).reverse :=
  (C4_visit_order_amended cDistinct).2.2.2.2.2.2 (by decide)

/-! ### Lifecycle phases (`Initialize`, `Start`, `Stop`) -/

/-- The abortive phase walk shared by `Container.Initialize` and
`Container.Start`: visit the sorted components in order, skip instances
that do not implement the phase interface, invoke the callback otherwise,
and return immediately with an error naming the component on the first
failure.  The result is the list of names whose callbacks ran (in order)
paired with the failing name, if any. -/
def runPhaseList (cb : Instance → Option Bool) : List ComponentInfo → List String × Option String
  | [] => ([], none)
  | c :: rest =>
      match cb c.inst with
      | none => runPhaseList cb rest
      | some true => (c.name :: (runPhaseList cb rest).1, (runPhaseList cb rest).2)
      | some false => ([c.name], some c.name)

/-- Mirror of `Container.Initialize`: the abortive walk over the
descending-priority order with each `Initializable` instance's `Init`. -/
def containerInit (s : Container) : List String × Option String :=
  runPhaseList (fun i => i.initCb) (getSortedComponents s false)

/-- Errors of `Container.Start`: `container already started`, or the
`startup failed for name` error of the first failing component. -/
inductive StartError where
  | alreadyStarted
  | phaseFailed (name : String)
deriving DecidableEq, Repr

/-- Mirror of `Container.Start`: refuse when already started, otherwise
run the abortive walk over the descending-priority order with each
`Startable` instance's `Start`, and set the `started` flag only when the
whole walk succeeds. -/
def containerStart (s : Container) : Container × List String × Option StartError :=
  if s.started then (s, [], some .alreadyStarted)
  else
    match runPhaseList (fun i => i.startCb) (getSortedComponents s false) with
    | (inv, some n) => (s, inv, some (.phaseFailed n))
    | (inv, none) => ({ s with started := true }, inv, none)

/-- The non-abortive walk of `Container.Stop`: every `Stoppable` instance
is invoked; `lastErr` is overwritten on each failure, so the error that
survives is the one of the last failing component in visit order. -/
def runStopList : List ComponentInfo → List String × Option String
  | [] => ([], none)
  | c :: rest =>
      match c.inst.stopCb with
      | none => runStopList rest
      | some true => (c.name :: (runStopList rest).1, (runStopList rest).2)
      | some false =>
          (c.name :: (runStopList rest).1,
           match (runStopList rest).2 with
           | some e => some e
           | none => some c.name)

/-- Mirror of `Container.Stop`: a no-op returning `nil` when the container
is not started; otherwise walk the ascending-priority order, clear the
`started` flag, and return the surviving `lastErr`. -/
def containerStop (s : Container) : Container × List String × Option String :=
  if s.started then
    ({ s with started := false },
     (runStopList (getSortedComponents s true)).1,
     (runStopList (getSortedComponents s true)).2)
  else (s, [], none)

theorem optionalLast_eq_getLast (a : String) (m : List String) :
    (match m.getLast? with
     | some e => some e
     | none => some a) = (a :: m).getLast? := by
  cases m with
  | nil => rfl
  | cons b bs =>
      rw [List.getLast?_cons_cons]
      cases h : (b :: bs).getLast? with
      | none =>
          rw [List.getLast?_eq_none_iff] at h
          cases h
      | some e => rfl

/-- Characterization of the `Stop` walk: the invoked names are exactly the
`Stoppable` components in visit order, and the returned error is the last
failing component's (or `none`). -/
theorem runStopList_spec (l : List ComponentInfo) :
    (runStopList l).1 =
      (l.filter (fun c => c.inst.stopCb.isSome)).map (fun c => c.name) ∧
    (runStopList l).2 =
      ((l.filter (fun c => c.inst.stopCb == some false)).map (fun c => c.name)).getLast? := by
  induction l with
  | nil => exact ⟨rfl, rfl⟩
  | cons c rest ih =>
      obtain ⟨ih1, ih2⟩ := ih
      rcases hcb : c.inst.stopCb with _ | b
      · constructor
        · simp [runStopList, hcb, List.filter_cons, ih1]
        · simp [runStopList, hcb, List.filter_cons, ih2]
      · cases b
        · constructor
          · simp [runStopList, hcb, List.filter_cons, ih1]
          · rw [show (runStopList (c :: rest)).2 =
                  (match (runStopList rest).2 with
                   | some e => some e
                   | none => some c.name) from by rw [runStopList, hcb]]
            rw [ih2, List.filter_cons]
            simp only [hcb]
            rw [if_pos (by rfl)]
            rw [List.map_cons]
            exact optionalLast_eq_getLast c.name _
        · constructor
          · simp [runStopList, hcb, List.filter_cons, ih1]
          · simp [runStopList, hcb, List.filter_cons, ih2]

/-- Claim C3 (amended): when the started container stops with two or more
components failing their `Stop` callback, every `Stoppable` component is
still invoked (no failure aborts the walk), but the single error returned
is the failure of the *last* failing component in visit order — the
earlier failures are overwritten, not aggregated. -/
theorem C3_stop_last_error_amended (s : Container)
    (hs : s.started = true)
    (hfail : 2 ≤ ((getSortedComponents s true).filter
        (fun c => c.inst.stopCb == some false)).length) :
    (containerStop s).2.1 =
      ((getSortedComponents s true).filter
        (fun c => c.inst.stopCb.isSome)).map (fun c => c.name) ∧
    (containerStop s).2.2 =
      (((getSortedComponents s true).filter
        (fun c => c.inst.stopCb == some false)).map (fun c => c.name)).getLast? ∧
    ((containerStop s).2.2).isSome = true := by
  obtain ⟨h1, h2⟩ := runStopList_spec (getSortedComponents s true)
  have hco : containerStop s =
      ({ s with started := false },
       (runStopList (getSortedComponents s true)).1,
       (runStopList (getSortedComponents s true)).2) := by
    rw [containerStop, if_pos hs]
  refine ⟨by rw [hco]; exact h1, by rw [hco]; exact h2, ?_⟩
  rw [hco]
  simp only [h2]
  rw [List.getLast?_isSome]
  intro hempty
  have hlen := congrArg List.length hempty
  rw [List.length_map] at hlen
  simp only [List.length_nil] at hlen
  omega

/-- An instance whose `Stop` callback fails. -/
def stopFailInst : Instance :=
  { typeId := 1, assignSet := [1], initCb := none, startCb := none, stopCb := some false }

def sfA : ComponentInfo :=
  { inst := stopFailInst, instanceType := some 1, name := "A", priority := 0,
    exportedTypes := [1], isPrimary := false }

def sfB : ComponentInfo :=
  { inst := stopFailInst, instanceType := some 1, name := "B", priority := 0,
    exportedTypes := [1], isPrimary := false }

/-- A started container with two components whose `Stop` callbacks fail. -/
def cStopFail : Container := (containerStart (registerAll [sfA, sfB])).1

/-- Counterexample to claim C3 as stated: both failing components are
invoked, but the returned error names only `B` — `A`'s failure does not
appear in it. -/
theorem C3_counterexample :
    (containerStop cStopFail).2.1 = ["A", "B"] ∧
    sfA.inst.stopCb = some false ∧ sfB.inst.stopCb = some false ∧
    (containerStop cStopFail).2.2 = some "B" ∧ "A" ≠ "B" := by
  refine ⟨by decide, rfl, rfl, by decide, by decide⟩

/-- Witness for the amended C3 at `cStopFail`: both stoppables run and the
error is the last failing name. -/
theorem C3_stop_last_error_amended_witness :
    (containerStop cStopFail).2.1 = ["A", "B"] ∧
    (containerStop cStopFail).2.2 = some "B" := by
  obtain ⟨h1, h2, _⟩ := C3_stop_last_error_amended cStopFail (by decide) (by decide)
  exact ⟨h1, h2⟩

theorem runPhaseList_append (cb : Instance → Option Bool) (pre : List ComponentInfo)
    (f : ComponentInfo) (post : List ComponentInfo)
    (hpre : ∀ c ∈ pre, cb c.inst ≠ some false)
    (hf : cb f.inst = some false) :
    runPhaseList cb (pre ++ f :: post) =
      ((pre.filter (fun c => (cb c.inst).isSome)).map (fun c => c.name) ++ [f.name],
       some f.name) := by
  induction pre with
  | nil => simp [runPhaseList, hf]
  | cons c rest ih =>
      have hc := hpre c (List.mem_cons_self c rest)
      have hrest : ∀ x ∈ rest, cb x.inst ≠ some false :=
        fun x hx => hpre x (List.mem_cons_of_mem c hx)
      rcases hcb : cb c.inst with _ | b
      · rw [List.cons_append]
        rw [show runPhaseList cb (c :: (rest ++ f :: post)) =
              runPhaseList cb (rest ++ f :: post) from by rw [runPhaseList, hcb]]
        rw [ih hrest, List.filter_cons]
        simp [hcb]
      · cases b
        · exact absurd hcb hc
        · rw [List.cons_append]
          rw [show runPhaseList cb (c :: (rest ++ f :: post)) =
                (c.name :: (runPhaseList cb (rest ++ f :: post)).1,
                 (runPhaseList cb (rest ++ f :: post)).2) from by rw [runPhaseList, hcb]]
          rw [ih hrest, List.filter_cons]
          simp [hcb]

theorem name_not_in_invoked (pre : List ComponentInfo) (f : ComponentInfo)
    (post : List ComponentInfo) (c : ComponentInfo) (hc : c ∈ post)
    (hnd : ((pre ++ f :: post).map (fun x => x.name)).Nodup)
    (q : ComponentInfo → Bool) :
    c.name ∉ (pre.filter q).map (fun x => x.name) ++ [f.name] := by
  rw [List.map_append, List.map_cons, List.nodup_append] at hnd
  obtain ⟨_, hnd2, hdisj⟩ := hnd
  rw [List.nodup_cons] at hnd2
  obtain ⟨hfnotin, _⟩ := hnd2
  intro hmem
  have hcpost : c.name ∈ post.map (fun x => x.name) :=
    List.mem_map.mpr ⟨c, hc, rfl⟩
  rcases List.mem_append.mp hmem with hin | hin
  · obtain ⟨x, hxf, hxn⟩ := List.mem_map.mp hin
    have hxpre : x ∈ pre := List.mem_of_mem_filter hxf
    have : c.name ∈ pre.map (fun x => x.name) :=
      List.mem_map.mpr ⟨x, hxpre, hxn⟩
    exact hdisj this (List.mem_cons_of_mem _ hcpost)
  · rw [List.mem_singleton] at hin
    rw [hin] at hcpost
    exact hfnotin hcpost

/-- Claim C6: a failing `Init` or `Start` callback aborts the phase at
once — the walk's result is the callbacks invoked before plus the failing
one, the error names the failing component (`Start` additionally leaves
the container unstarted), and no component scheduled after the failing one
in visit order has its callback invoked. -/
theorem C6_phase_abort (s : Container) (pre : List ComponentInfo) (f : ComponentInfo)
    (post : List ComponentInfo) :
    (getSortedComponents s false = pre ++ f :: post →
      (∀ c ∈ pre, c.inst.initCb ≠ some false) → f.inst.initCb = some false →
      (containerInit s =
        ((pre.filter (fun c => c.inst.initCb.isSome)).map (fun c => c.name) ++ [f.name],
         some f.name) ∧
       ∀ c ∈ post, ((pre ++ f :: post).map (fun x => x.name)).Nodup →
         c.name ∉ (containerInit s).1)) ∧
    (s.started = false →
      getSortedComponents s false = pre ++ f :: post →
      (∀ c ∈ pre, c.inst.startCb ≠ some false) → f.inst.startCb = some false →
      (containerStart s =
        (s, (pre.filter (fun c => c.inst.startCb.isSome)).map (fun c => c.name) ++ [f.name],
         some (.phaseFailed f.name)) ∧
       ∀ c ∈ post, ((pre ++ f :: post).map (fun x => x.name)).Nodup →
         c.name ∉ (containerStart s).2.1)) := by
  constructor
  · intro hsort hpre hf
    have hrun := runPhaseList_append (fun i => i.initCb) pre f post hpre hf
    have hinit : containerInit s =
        ((pre.filter (fun c => c.inst.initCb.isSome)).map (fun c => c.name) ++ [f.name],
         some f.name) := by
      rw [containerInit, hsort, hrun]
    refine ⟨hinit, ?_⟩
    intro c hc hnd
    rw [hinit]
    exact name_not_in_invoked pre f post c hc hnd _
  · intro hst hsort hpre hf
    have hrun := runPhaseList_append (fun i => i.startCb) pre f post hpre hf
    have hstart : containerStart s =
        (s, (pre.filter (fun c => c.inst.startCb.isSome)).map (fun c => c.name) ++ [f.name],
         some (.phaseFailed f.name)) := by
      rw [containerStart, if_neg (by simp [hst]), hsort, hrun]
    refine ⟨hstart, ?_⟩
    intro c hc hnd
    rw [hstart]
    exact name_not_in_invoked pre f post c hc hnd _

/-- An instance whose callbacks all succeed. -/
def okInst : Instance :=
  { typeId := 1, assignSet := [1], initCb := some true, startCb := some true,
    stopCb := some true }

/-- An instance whose `Start` callback fails. -/
def startFailInst : Instance :=
  { typeId := 1, assignSet := [1], initCb := none, startCb := some false, stopCb := some true }

/-- An instance whose `Init` callback fails. -/
def initFailInst : Instance :=
  { typeId := 1, assignSet := [1], initCb := some false, startCb := none, stopCb := none }

def gComp : ComponentInfo :=
  { inst := okInst, instanceType := some 1, name := "G", priority := 2,
    exportedTypes := [1], isPrimary := false }

def fComp : ComponentInfo :=
  { inst := startFailInst, instanceType := some 1, name := "F", priority := 1,
    exportedTypes := [1], isPrimary := false }

def iComp : ComponentInfo :=
  { inst := initFailInst, instanceType := some 1, name := "I", priority := 1,
    exportedTypes := [1], isPrimary := false }

def cStartDemo : Container := registerAll [gComp, fComp]

def cInitDemo : Container := registerAll [gComp, iComp]

/-- Witness for C6: with `G` (priority 2, succeeding) before a failing
component of priority 1, the failing phase stops at the failure and the
error names it. -/
theorem C6_phase_abort_witness :
    containerInit cInitDemo = (["G", "I"], some "I") ∧
    containerStart cStartDemo =
      (cStartDemo, ["G", "F"], some (StartError.phaseFailed "F")) :=
  ⟨((C6_phase_abort cInitDemo [gComp] iComp []).1 (by decide) (by decide) (by decide)).1,
   ((C6_phase_abort cStartDemo [gComp] fComp []).2 (by decide) (by decide) (by decide)
      (by decide)).1⟩

/-! ### The `started` flag across lifecycles (C8, C10) -/

/-- A lifecycle operation invoked by a caller. -/
inductive LifeOp where
  | startOp
  | stopOp
deriving DecidableEq, Repr

/-- State reached after one lifecycle call. -/
def applyOp (s : Container) : LifeOp → Container
  | .startOp => (containerStart s).1
  | .stopOp => (containerStop s).1

/-- State reached after a sequence of lifecycle calls. -/
def runOps (s : Container) (ops : List LifeOp) : Container :=
  ops.foldl applyOp s

/-- Whether a call trace contains no successful `Start` (every `Start`
along it returned an error). -/
def noStartSuccess : Container → List LifeOp → Bool
  | _, [] => true
  | s, op :: rest =>
      (match op with
       | .startOp => ((containerStart s).2.2).isSome
       | .stopOp => true) && noStartSuccess (applyOp s op) rest

theorem runOps_not_started (ops : List LifeOp) :
    ∀ s : Container, s.started = false → noStartSuccess s ops = true →
      (runOps s ops).started = false := by
  induction ops with
  | nil => intro s hs _; exact hs
  | cons op rest ih =>
      intro s hs h
      simp only [noStartSuccess, Bool.and_eq_true] at h
      obtain ⟨h1, h2⟩ := h
      have hstep : (applyOp s op).started = false := by
        cases op with
        | startOp =>
            rw [applyOp]
            rw [containerStart, if_neg (by simp [hs])]
            rcases hr : runPhaseList (fun i => i.startCb) (getSortedComponents s false)
              with ⟨inv, err⟩
            cases err with
            | none =>
                rw [containerStart, if_neg (by simp [hs]), hr] at h1
                simp at h1
            | some n => exact hs
        | stopOp =>
            rw [applyOp, containerStop, if_neg (by simp [hs])]
            exact hs
      exact ih (applyOp s op) hstep h2

/-- Claim C8: `Stop` on a container that was never successfully started
(no `Start` in its call trace succeeded) is a successful no-op invoking no
callback; a second `Start` without an intervening `Stop` fails fatally
with the already-started error, invoking no callback. -/
theorem C8_start_stop_guards :
    (∀ (s0 : Container) (ops : List LifeOp), s0.started = false →
      noStartSuccess s0 ops = true →
      containerStop (runOps s0 ops) = (runOps s0 ops, [], none)) ∧
    (∀ (s s1 : Container) (inv : List String),
      containerStart s = (s1, inv, none) →
      containerStart s1 = (s1, [], some .alreadyStarted)) := by
  constructor
  · intro s0 ops h0 hns
    have := runOps_not_started ops s0 h0 hns
    rw [containerStop, if_neg (by simp [this])]
  · intro s s1 inv h
    by_cases hs : s.started = true
    · rw [containerStart, if_pos hs] at h
      cases h
    · rw [Bool.not_eq_true] at hs
      rw [containerStart, if_neg (by simp [hs])] at h
      rcases hr : runPhaseList (fun i => i.startCb) (getSortedComponents s false)
        with ⟨inv2, err⟩
      rw [hr] at h
      cases err with
      | some n => cases h
      | none =>
          have hs1 : s1 = { s with started := true } := (Prod.mk.injEq _ _ _ _ ▸ h).1.symm
          rw [containerStart, if_pos (by rw [hs1])]

/-- A container holding only the start-failing component `F`. -/
def cFS : Container := registerAll [fComp]

/-- A container holding only the all-succeeding component `G`. -/
def cOk : Container := registerAll [gComp]

/-- `cOk` after its successful `Start`. -/
def cStarted : Container := (containerStart cOk).1

/-- Witness for C8: after a failed `Start` on `cFS`, `Stop` is a no-op;
after the successful `Start` of `cOk`, a second `Start` is refused. -/
theorem C8_start_stop_guards_witness :
    containerStop (runOps cFS [LifeOp.startOp]) = (runOps cFS [LifeOp.startOp], [], none) ∧
    containerStart cStarted = (cStarted, [], some .alreadyStarted) :=
  ⟨C8_start_stop_guards.1 cFS [LifeOp.startOp] rfl (by decide),
   C8_start_stop_guards.2 cOk cStarted ["G"] (by decide)⟩

/-- Claim C10: a partway-failed `Start` leaves the container unchanged
with `started` still false, so a following `Stop` is a successful no-op
invoking no `Stop` callback (in particular not those of the components
whose `Start` succeeded in the failed attempt), while a following `Start`
is permitted and re-runs the whole phase exactly as the first attempt
did. -/
theorem C10_failed_start_state (s s2 : Container) (inv : List String) (n : String)
    (hs : s.started = false)
    (h : containerStart s = (s2, inv, some (.phaseFailed n))) :
    s2 = s ∧ s2.started = false ∧
    containerStop s2 = (s2, [], none) ∧
    containerStart s2 = containerStart s := by
  rw [containerStart, if_neg (by simp [hs])] at h
  rcases hr : runPhaseList (fun i => i.startCb) (getSortedComponents s false)
    with ⟨inv2, err⟩
  rw [hr] at h
  cases err with
  | none => cases h
  | some m =>
      have hs2 : s2 = s := (Prod.mk.injEq _ _ _ _ ▸ h).1.symm
      subst hs2
      refine ⟨rfl, hs, ?_, rfl⟩
      rw [containerStop, if_neg (by simp [hs])]

/-- Witness for C10 at `cStartDemo` (where `F` fails `Start` after `G`
succeeded): the state is unchanged, `Stop` is a no-op, and retrying
`Start` reproduces the first attempt. -/
theorem C10_failed_start_state_witness :
    containerStop cStartDemo = (cStartDemo, [], none) ∧
    containerStart cStartDemo = containerStart cStartDemo :=
  ⟨(C10_failed_start_state cStartDemo cStartDemo ["G", "F"] "F" rfl (by decide)).2.2.1,
   (C10_failed_start_state cStartDemo cStartDemo ["G", "F"] "F" rfl (by decide)).2.2.2⟩

/-! ### Registration paths (`ObjectBuilder`, `AutoRegister`) -/

/-- Mirror of `ObjectBuilder` in `boot/object_builder.go` (the fields the
committed descriptor depends on; `nameSet`/`prioritySet` never influence
it). -/
structure ObjectBuilder where
  inst : Instance
  name : String
  priority : Int
  exportedTypes : List TypeId
  isPrimary : Bool
deriving DecidableEq, Repr

/-- Mirror of `newObjectBuilder`: default name derived from the instance
type (passed in as `defaultName`, type names being opaque here), priority
`0`, and an exported slice holding exactly the instance's own type. -/
def newObjectBuilder (inst : Instance) (defaultName : String) : ObjectBuilder :=
  { inst := inst, name := defaultName, priority := 0,
    exportedTypes := [inst.typeId], isPrimary := false }

/-- The fluent calls `Name` / `Priority` / `Export` / `Primary`. -/
inductive BuilderOp where
  | withName (n : String)
  | withPriority (p : Int)
  | exportCap (t : TypeId)
  | primary
deriving DecidableEq, Repr

def applyBuilderOp (b : ObjectBuilder) : BuilderOp → ObjectBuilder
  | .withName n => { b with name := n }
  | .withPriority p => { b with priority := p }
  | .exportCap t => { b with exportedTypes := b.exportedTypes ++ [t] }
  | .primary => { b with isPrimary := true }

/-- The `ComponentInfo` literal built by `ObjectBuilder.register`. -/
def builderInfo (b : ObjectBuilder) : ComponentInfo :=
  { inst := b.inst, instanceType := some b.inst.typeId, name := b.name,
    priority := b.priority, exportedTypes := b.exportedTypes, isPrimary := b.isPrimary }

/-- `ObjectBuilder.register`: hand the accumulated configuration to
`registerComponent`. -/
def builderRegister (c : Container) (b : ObjectBuilder) : Container × Option String :=
  registerComponent c (builderInfo b)

/-- Mirror of `AutoRegister`: the `ComponentInfo` literal there sets only
`Instance`, `Name` (from `component.Name()`, possibly overridden via the
`component` tag) and `Priority`, leaving `InstanceType` and
`ExportedTypes` at their zero values (`nil`). -/
def autoRegister (c : Container) (inst : Instance) (name : String) (priority : Int) :
    Container × Option String :=
  registerComponent c
    { inst := inst, instanceType := none, name := name, priority := priority,
      exportedTypes := [], isPrimary := false }

theorem builder_keeps_typeId (inst : Instance) (nm : String) (ops : List BuilderOp) :
    inst.typeId ∈ (ops.foldl applyBuilderOp (newObjectBuilder inst nm)).exportedTypes := by
  suffices h : ∀ b : ObjectBuilder, inst.typeId ∈ b.exportedTypes →
      inst.typeId ∈ (ops.foldl applyBuilderOp b).exportedTypes from
    h _ (by simp [newObjectBuilder])
  induction ops with
  | nil => intro b hb; simpa using hb
  | cons op rest ih =>
      intro b hb
      simp only [List.foldl_cons]
      apply ih
      cases op with
      | withName n => simpa [applyBuilderOp] using hb
      | withPriority p => simpa [applyBuilderOp] using hb
      | exportCap t => exact List.mem_append.mpr (Or.inl hb)
      | primary => simpa [applyBuilderOp] using hb

theorem registerComponent_ok (c c2 : Container) (info : ComponentInfo)
    (h : registerComponent c info = (c2, none)) :
    c2.components = c.components ++ [info] := by
  unfold registerComponent at h
  cases hl : c.componentsByName.lookup info.name with
  | some prev => rw [hl] at h; simp at h
  | none =>
      rw [hl] at h
      have h1 := (Prod.mk.injEq _ _ _ _ ▸ h).1
      rw [← h1]

/-- Counterexample to claim C9 as stated: the descriptor committed by the
`AutoRegister` path carries an empty exported capability set, which in
particular does not include the component's own concrete type. -/
theorem C9_counterexample :
    ((autoRegister newContainer instA "U" 100).1.components.map
      (fun d => d.exportedTypes)) = [[]] ∧
    ((autoRegister newContainer instA "U" 100).1.components.all
      (fun d => d.exportedTypes.contains d.inst.typeId)) = false :=
  ⟨by decide, by decide⟩

/-- Claim C9 (amended): every descriptor committed through the fluent
builder path exports at least the component's own concrete type, whatever
sequence of builder calls precedes registration; the `AutoRegister` path,
by contrast, always commits a descriptor whose exported capability set is
empty (such components are resolvable by name only). -/
theorem C9_exported_self_amended :
    (∀ (inst : Instance) (nm : String) (ops : List BuilderOp),
      inst.typeId ∈ (ops.foldl applyBuilderOp (newObjectBuilder inst nm)).exportedTypes) ∧
    (∀ (c c2 : Container) (inst : Instance) (nm : String) (ops : List BuilderOp),
      builderRegister c (ops.foldl applyBuilderOp (newObjectBuilder inst nm)) = (c2, none) →
      ∃ d, c2.components.getLast? = some d ∧ inst.typeId ∈ d.exportedTypes) ∧
    (∀ (c c2 : Container) (inst : Instance) (nm : String) (pr : Int),
      autoRegister c inst nm pr = (c2, none) →
      ∃ d, c2.components.getLast? = some d ∧ d.exportedTypes = [] ∧ d.inst = inst) := by
  refine ⟨builder_keeps_typeId, ?_, ?_⟩
  · intro c c2 inst nm ops h
    have hc := registerComponent_ok c c2 _ h
    refine ⟨builderInfo (ops.foldl applyBuilderOp (newObjectBuilder inst nm)), ?_, ?_⟩
    · rw [hc, List.getLast?_concat]
    · exact builder_keeps_typeId inst nm ops
  · intro c c2 inst nm pr h
    have hc := registerComponent_ok c c2 _ h
    exact ⟨_, by rw [hc, List.getLast?_concat], rfl, rfl⟩

/-- Witness for the amended C9: a builder run with an extra `Export` still
carries the instance's own type, and a concrete `AutoRegister` commits an
empty exported set. -/
theorem C9_exported_self_amended_witness :
    (instA.typeId ∈
      ([BuilderOp.exportCap 9].foldl applyBuilderOp
        (newObjectBuilder instA "A")).exportedTypes) ∧
    ∃ d, ((autoRegister newContainer instA "U" 100).1.components.getLast? = some d ∧
      d.exportedTypes = [] ∧ d.inst = instA) :=
  ⟨C9_exported_self_amended.1 instA "A" [BuilderOp.exportCap 9],
   C9_exported_self_amended.2.2 newContainer (autoRegister newContainer instA "U" 100).1
     instA "U" 100 (by decide)⟩

end Ginject
